import Mathlib

/-!
Shallow embedding of the metabolomics data-processing utilities of the
Christofk_Grapha Dash application (layout/utilities_figure.py,
layout/utilities_download.py and the comparison-storing callbacks), together
with theorems settling the frozen claims about them.

Numeric cell values are modelled as rationals; a float NaN is modelled as
`none` in `Option ℚ` where NaN can occur.  np.log2 is abstracted by a
function parameter `lg : ℚ → ℚ` because the surrounding code only ever
branches on exact zero tests, never on the value of the logarithm itself.
-/

namespace Grapha

/-- Cell-level embedding of log2_transform (utilities_figure.py):
each value column is mapped by `lambda x: np.log2(x) if x != 0 else 0`.
`lg` abstracts np.log2. -/
def log2_transform (lg : ℚ → ℚ) (x : ℚ) : ℚ :=
  if x ≠ 0 then lg x else 0

/-- Control-average computation inside transform_log2_and_adjust_control_data:
`df[ctrl_cols].replace(0, np.nan).mean(axis=1, skipna=True)` followed by
`.fillna(0)` — the mean of the non-zero control values, and 0 when every
control value is zero. -/
def ctrl_avg (ctrlVals : List ℚ) : ℚ :=
  let nz := ctrlVals.filter (fun v => v ≠ 0)
  if nz.length = 0 then 0 else nz.sum / (nz.length : ℚ)

/-- Cell-level embedding of transform_log2_and_adjust_control_data
(utilities_figure.py): the whole table is log2-transformed (zeros mapped to
0 by log2_transform), the log2 of the control average is merged in, and each
data column is updated by
`np.where(col != 0, col - ctrl_avg, 0)` — note that the test `col != 0` is
applied to the log2-TRANSFORMED column value. -/
def transform_log2_and_adjust_control_data (lg : ℚ → ℚ) (ctrlVals : List ℚ) (x : ℚ) : ℚ :=
  let ctrlAvgLog2 := log2_transform lg (ctrl_avg ctrlVals)
  let v := log2_transform lg x
  if v ≠ 0 then v - ctrlAvgLog2 else 0

/-- Concrete values of np.log2 at the inputs used by the concrete instances
below: log2 1 = 0, log2 2 = 1, log2 4 = 2.  Other inputs are never used. -/
def log2_table (x : ℚ) : ℚ :=
  if x = 1 then 0 else if x = 2 then 1 else if x = 4 then 2 else 0

/-- The scatter loop of apply_pvalue_correction:
`corrected_full` starts as an all-NaN array of the input's shape and
`for idx, corr_pval in zip(valid_indices, corrected_pvalues)` writes the
corrected values back at the valid (non-NaN) positions; `zip` truncates to
the shorter argument, so positions never written stay NaN. -/
def reintegrate : List (Option ℚ) → List ℚ → List (Option ℚ)
  | [], _ => []
  | none :: ps, cs => none :: reintegrate ps cs
  | some _ :: ps, [] => none :: reintegrate ps []
  | some _ :: ps, c :: cs => some c :: reintegrate ps cs

/-- statsmodels.stats.multitest.multipletests with method given as the string
for Bonferroni: each p-value is multiplied by the number of tests and the
result is clipped at 1. -/
def bonferroni (ps : List ℚ) : List ℚ :=
  ps.map (fun p => min (p * (ps.length : ℚ)) 1)

/-- Embedding of apply_pvalue_correction (utilities_figure.py; the copy
apply_pvalue_correction_download in utilities_download.py is identical):
the non-NaN entries are collected, corrected jointly by the chosen method
(`correct` abstracts the multipletests call), and scattered back into an
all-NaN array of the original shape; with no valid entry the output is
all NaN. -/
def apply_pvalue_correction (correct : List ℚ → List ℚ) (pvalues : List (Option ℚ)) :
    List (Option ℚ) :=
  let valid_pvalues := pvalues.filterMap id
  if valid_pvalues.isEmpty then pvalues.map (fun _ => none)
  else reintegrate pvalues (correct valid_pvalues)

/-- np.mean of a list of rationals. -/
def listMean (xs : List ℚ) : ℚ := xs.sum / (xs.length : ℚ)

/-- np.var: the population variance (mean of squared deviations). -/
def popVar (xs : List ℚ) : ℚ :=
  ((xs.map (fun x => (x - listMean xs) ^ 2)).sum) / (xs.length : ℚ)

/-- The guard chain of perform_two_sided_ttest_download
(utilities_download.py), which decides what is stored in the per-comparison
cell: the strings are exactly the tags the code writes, and the sentinel
"computed" stands for the branch that runs scipy.stats.ttest_ind and stores
the numeric p-value.  The variance guard `np.std(g) < variance_threshold` is
rendered as `popVar g < t ^ 2`, equivalent for a non-negative threshold
since the standard deviation is the square root of the variance. -/
def perform_two_sided_ttest_download_tag (g1 g2 : List ℚ) (t : ℚ) : String :=
  if g1.length < 2 ∨ g2.length < 2 then "insufficient data"
  else if popVar g1 < t ^ 2 ∨ popVar g2 < t ^ 2 then "variance < 1E-08"
  else if g1 = g2 then "identical data"
  else "computed"

/-- The guard chain of calculate_metabolomics_pvalue_and_display
(utilities_figure.py): zero values are filtered out, then the three early
returns "ins data", "zero var" and "identical" are tried in that order
(the zero-variance test runs on the UNfiltered data, the length test on the
filtered data, and the identity test on the unfiltered data); "computed"
stands for the branch that runs the t-test and formats a symbol. -/
def calculate_metabolomics_pvalue_and_display_tag (y0 y1 : List ℚ) : String :=
  if (y0.filter (fun v => v ≠ 0)).length < 2 ∨ (y1.filter (fun v => v ≠ 0)).length < 2 then
    "ins data"
  else if popVar y0 = 0 ∨ popVar y1 = 0 then "zero var"
  else if y0 = y1 then "identical"
  else "computed"

/-- One entry of the ratio_list argument of compile_met_pool_ratio_data:
a dict with the keys for the numerator and denominator compound names. -/
structure RatioSpec where
  numerator : String
  denominator : String

/-- Embedding of compile_met_pool_ratio_data (utilities_figure.py).  A table
row is (Compound, sample values); `df.columns[1:]` are the sample columns at
every call site (the callers pass the output of normalize_met_pool_data,
whose first column is Compound).  For each requested ratio: both compounds
must be present in the Compound column; the matching rows are extracted and
used only when each has exactly one match; the values are
`np.where(denom_values != 0, num_values / denom_values, 0)`; the synthetic
row carries pathway_class "metabolite ratios" and the compound name
f-string numerator + " / " + denominator.  Specs failing a check contribute
nothing. -/
def compile_met_pool_ratio_data (rows : List (String × List ℚ)) (ratio_list : List RatioSpec) :
    List (String × String × List ℚ) :=
  ratio_list.filterMap (fun ratio =>
    if ratio.numerator ∈ rows.map Prod.fst ∧ ratio.denominator ∈ rows.map Prod.fst then
      let num_rows := (rows.filter (fun q => q.1 = ratio.numerator)).map Prod.snd
      let denom_rows := (rows.filter (fun q => q.1 = ratio.denominator)).map Prod.snd
      if num_rows.length = 1 ∧ denom_rows.length = 1 then
        some ("metabolite ratios", ratio.numerator ++ " / " ++ ratio.denominator,
          List.zipWith (fun n d => if d ≠ 0 then n / d else 0)
            (num_rows.headD []) (denom_rows.headD []))
      else none
    else none)

/-- Column selection `df_pool[all_samples]`: the selected sample columns, in
selection order, of one row's value list. -/
def select_columns (cols : List ℕ) (vals : List ℚ) : List ℚ :=
  cols.map (fun j => vals.getD j 0)

/-- The per-column normalization factors of normalize_met_pool_data:
`df_pool_filtered[df_pool_filtered['Compound'].isin(normalization_list)]`
followed by `.set_index('Compound').prod()` — for each sample column, the
product of that column's values over the rows whose compound name is in the
normalization list (the product over zero rows is 1, as in pandas). -/
def normalization_factors (df_filtered : List (String × List ℚ))
    (normalization_list : List String) (ncols : ℕ) : List ℚ :=
  let norm_rows := df_filtered.filter (fun r => r.1 ∈ normalization_list)
  (List.range ncols).map (fun k => (norm_rows.map (fun r => r.2.getD k 1)).prod)

/-- Embedding of normalize_met_pool_data (utilities_figure.py): the table is
restricted to the selected sample columns, every row's value in each column
is divided by that column's normalization factor, and the normalization rows
themselves are dropped from the output. -/
def normalize_met_pool_data (rows : List (String × List ℚ)) (cols : List ℕ)
    (normalization_list : List String) : List (String × List ℚ) :=
  let df_filtered := rows.map (fun r => (r.1, select_columns cols r.2))
  let factors := normalization_factors df_filtered normalization_list cols.length
  let normalized := df_filtered.map (fun r => (r.1, (r.2.zip factors).map (fun p => p.1 / p.2)))
  normalized.filter (fun r => r.1 ∉ normalization_list)

/-- The color fields of the settings dict read by assign_color. -/
structure VolcanoSettings where
  color_inc_1 : String
  color_inc_2 : String
  color_inc_3 : String
  color_dec_1 : String
  color_dec_2 : String
  color_dec_3 : String
  datapoint_color : String

/-- Python float comparison `c < x` where `x` may be NaN (`none`): every
comparison with NaN is False. -/
def nanGt (x : Option ℚ) (c : ℚ) : Bool :=
  match x with
  | none => false
  | some v => decide (c < v)

/-- Python float comparison `x < c` where `x` may be NaN: False on NaN. -/
def nanLt (x : Option ℚ) (c : ℚ) : Bool :=
  match x with
  | none => false
  | some v => decide (v < c)

/-- Python float comparison `x <= c` where `x` may be NaN: False on NaN. -/
def nanLe (x : Option ℚ) (c : ℚ) : Bool :=
  match x with
  | none => false
  | some v => decide (v ≤ c)

/-- Embedding of assign_color (utilities_figure.py): the exact if/elif
chain of the code, with the row's 'logp-value' and 'log2FC' possibly NaN. -/
def assign_color (s : VolcanoSettings) (FC_cutoff t3 t2 t1 : ℚ)
    (logp log2FC : Option ℚ) : String :=
  if nanGt log2FC FC_cutoff then
    if nanGt logp t3 then s.color_inc_3
    else if nanLe logp t3 && nanGt logp t2 then s.color_inc_2
    else if nanLe logp t2 && nanGt logp t1 then s.color_inc_1
    else s.datapoint_color
  else if nanLt log2FC (-FC_cutoff) then
    if nanGt logp t3 then s.color_dec_3
    else if nanLe logp t3 && nanGt logp t2 then s.color_dec_2
    else if nanLe logp t2 && nanGt logp t1 then s.color_dec_1
    else s.datapoint_color
  else s.datapoint_color

/-- The spec's description of the volcano bucket for non-NaN inputs:
direction by strict comparison of the fold change against the cutoff, tier
by the highest p-value cutoff strictly exceeded, boundary values falling to
the less significant bucket, and not-significant whenever no p-value cutoff
is strictly exceeded. -/
def volcano_spec_color (s : VolcanoSettings) (FC_cutoff t3 t2 t1 : ℚ)
    (logp log2FC : ℚ) : String :=
  if FC_cutoff < log2FC then
    if t3 < logp then s.color_inc_3
    else if t2 < logp then s.color_inc_2
    else if t1 < logp then s.color_inc_1
    else s.datapoint_color
  else if log2FC < -FC_cutoff then
    if t3 < logp then s.color_dec_3
    else if t2 < logp then s.color_dec_2
    else if t1 < logp then s.color_dec_1
    else s.datapoint_color
  else s.datapoint_color

/-- The 5-tuple returned by scipy.stats.linregress: slope, intercept,
r-value, two-sided Wald-test p-value, standard error. -/
structure LinregressResult where
  slope : ℚ
  intercept : ℚ
  rvalue : ℚ
  pvalue : ℚ
  stderr : ℚ

/-- One output row of get_download_df_lingress: either the regression
statistics (with an empty ND Reason) or a not-determined record carrying
the ND Reason string. -/
inductive LingressRecord where
  | nd (compound : String) (reason : String)
  | stats (compound : String) (r : LinregressResult)

/-- The paired NaN filter of get_download_df_lingress
(utilities_download.py):
`valid_indices = (~var_values.isna()) & (~met_values.isna())` applied to
both series — an index survives only when BOTH sides are non-NaN, and the
surviving (x, y) pairs keep their order. -/
def pairedFilter (varVals metVals : List (Option ℚ)) : List (ℚ × ℚ) :=
  (varVals.zip metVals).filterMap (fun q =>
    match q with
    | (some x, some y) => some (x, y)
    | _ => none)

/-- Index-wise description of the valid paired points: the indices at which
both series are non-NaN, each mapped to its pair of values. -/
def valid_paired_points (xs ys : List (Option ℚ)) : List (ℚ × ℚ) :=
  ((List.range xs.length).filter
      (fun i => (xs.getD i none).isSome && (ys.getD i none).isSome)).map
    (fun i => ((xs.getD i none).getD 0, (ys.getD i none).getD 0))

/-- The loop body of get_download_df_lingress (utilities_download.py) for
one compound row: paired NaN filtering, then the guard
`if len(var_values_filtered) < 2 or len(met_values_filtered) < 2` appending
a record with ND Reason 'Insufficient valid data points', otherwise the
linregress call (abstracted by `lin`) whose five statistics are stored.
Both filtered series come from the same mask, so they share one length. -/
def get_download_df_lingress_row (lin : List (ℚ × ℚ) → LinregressResult)
    (compound : String) (varVals metVals : List (Option ℚ)) : LingressRecord :=
  let pairs := pairedFilter varVals metVals
  if pairs.length < 2 then .nd compound "Insufficient valid data points"
  else .stats compound (lin pairs)

/-- Python `sorted([a, b])` for two indices, as an ordered pair. -/
def sortPair (a b : ℕ) : ℕ × ℕ :=
  if a ≤ b then (a, b) else (b, a)

/-- The body of the deduplication loop shared by
update_pvalue_data_and_manage_dropdowns (callbacks_user.py) and
update_download_pvalue_comparisons (callbacks_download.py): a combination is
appended only when it has not been seen before (`seen_combinations` holds
exactly the combinations already in the output list). -/
def add_combination (acc : List (ℕ × ℕ)) (c : ℕ × ℕ) : List (ℕ × ℕ) :=
  if c ∈ acc then acc else acc ++ [c]

/-- The comparison-storing loop of both callbacks: for each selected pair of
group names, the combination is `sorted([group_order.index(g1),
group_order.index(g2)])`, and unseen combinations are appended in order. -/
def store_comparisons (group_order : List String)
    (selections : List (String × String)) : List (ℕ × ℕ) :=
  selections.foldl
    (fun acc s =>
      add_combination acc (sortPair (group_order.indexOf s.1) (group_order.indexOf s.2)))
    []

/-- The worked p-value list of the spec: [0.01, NaN, 0.04, NaN, 0.5]. -/
def demoPvalues : List (Option ℚ) :=
  [some (1/100), none, some (1/25), none, some (1/2)]

/-- A settings value with distinguishable colors, for concrete instances. -/
def demoSettings : VolcanoSettings :=
  ⟨"inc1", "inc2", "inc3", "dec1", "dec2", "dec3", "ns"⟩

/-- A concrete stand-in for the abstract linregress call. -/
def demoLin : List (ℚ × ℚ) → LinregressResult :=
  fun _ => ⟨1, 2, 3, 4, 5⟩

/-- A table in which compound "A" appears in two rows. -/
def dupRows : List (String × List ℚ) :=
  [("A", [1]), ("A", [2]), ("B", [3])]

/-! ## Theorems -/

/-- C1: the zero-preserving half of the claim holds (an original 0 cell
stays 0 whatever the control average is), but the non-zero half fails: the
subtraction is gated on the log2-TRANSFORMED value, so an original cell of
value 1 (whose log2 is 0) is left at 0 instead of becoming
log2 1 − log2(control average).  With control values [2, 2] the control
average is 2, the claimed output for a raw cell 1 is −1, and the code
returns 0.  The code contradicts its own docstring, which promises that
only original zeros are exempt from the subtraction. -/
theorem c1_raw_one_cell_not_adjusted (lg : ℚ → ℚ) (h1 : lg 1 = 0) (h2 : lg 2 = 1) :
    (∀ ctrlVals : List ℚ, transform_log2_and_adjust_control_data lg ctrlVals 0 = 0) ∧
    transform_log2_and_adjust_control_data lg [2, 2] 1 = 0 ∧
    log2_transform lg 1 - log2_transform lg (ctrl_avg [2, 2]) = -1 := by
  have hca : ctrl_avg [2, 2] = 2 := by
    norm_num [ctrl_avg, List.filter]
  refine ⟨?_, ?_, ?_⟩
  · intro ctrlVals
    simp [transform_log2_and_adjust_control_data, log2_transform]
  · simp [transform_log2_and_adjust_control_data, log2_transform, h1]
  · norm_num [log2_transform, hca, h1, h2]

/-- C1 witness: the statement evaluated at the partial log2 table. -/
theorem c1_raw_one_cell_not_adjusted_witness :
    (log2_table 1 = 0 ∧ log2_table 2 = 1) ∧
    ((∀ ctrlVals : List ℚ, transform_log2_and_adjust_control_data log2_table ctrlVals 0 = 0) ∧
     transform_log2_and_adjust_control_data log2_table [2, 2] 1 = 0 ∧
     log2_transform log2_table 1 - log2_transform log2_table (ctrl_avg [2, 2]) = -1) :=
  ⟨⟨by decide, by decide⟩, c1_raw_one_cell_not_adjusted log2_table (by decide) (by decide)⟩

/-- C3 counterexample: the pair [5,5,5] vs [5,5,5] of identical vectors is
NOT tagged "identical data": in perform_two_sided_ttest_download the
standard-deviation guard fires first (tag "variance < 1E-08"), and in
calculate_metabolomics_pvalue_and_display the zero-variance guard fires
first (tag "zero var"). -/
theorem c3_identical_constant_vectors_hit_variance_guard :
    perform_two_sided_ttest_download_tag [5, 5, 5] [5, 5, 5] (1/100000) ≠ "identical data" ∧
    perform_two_sided_ttest_download_tag [5, 5, 5] [5, 5, 5] (1/100000) = "variance < 1E-08" ∧
    calculate_metabolomics_pvalue_and_display_tag [5, 5, 5] [5, 5, 5] = "zero var" := by
  have h5 : popVar [5, 5, 5] = 0 := by
    norm_num [popVar, listMean]
  have hd : perform_two_sided_ttest_download_tag [5, 5, 5] [5, 5, 5] (1/100000) =
      "variance < 1E-08" := by
    unfold perform_two_sided_ttest_download_tag
    rw [if_neg (by norm_num), if_pos (Or.inl (by rw [h5]; norm_num))]
  have hfil : ((([5, 5, 5] : List ℚ).filter (fun v => v ≠ 0)).length : ℕ) = 3 := by
    decide
  have hf : calculate_metabolomics_pvalue_and_display_tag [5, 5, 5] [5, 5, 5] = "zero var" := by
    unfold calculate_metabolomics_pvalue_and_display_tag
    rw [if_neg (by rw [hfil]; norm_num), if_pos (Or.inl h5)]
  exact ⟨by rw [hd]; decide, hd, hf⟩

/-- C3 amended: a pair of identical vectors is tagged "identical data"
(resp. "identical" in the figure-side function) provided the vectors pass
the guards tried earlier: at least 2 entries (non-zero entries for the
figure-side function) and variance not below the guard's threshold. -/
theorem c3_identical_vectors_with_variance_tagged_identical (g : List ℚ) (t : ℚ)
    (hlen : 2 ≤ g.length) (hvar : ¬ popVar g < t ^ 2)
    (hlen0 : 2 ≤ (g.filter (fun v => v ≠ 0)).length) (hvar0 : popVar g ≠ 0) :
    perform_two_sided_ttest_download_tag g g t = "identical data" ∧
    calculate_metabolomics_pvalue_and_display_tag g g = "identical" := by
  constructor
  · unfold perform_two_sided_ttest_download_tag
    rw [if_neg (by omega), if_neg (by tauto), if_pos rfl]
  · unfold calculate_metabolomics_pvalue_and_display_tag
    rw [if_neg (by omega), if_neg (by tauto), if_pos rfl]

/-- C3 witness: the identical non-constant pair [1,2,3] vs [1,2,3] passes
the earlier guards and is tagged "identical data" / "identical". -/
theorem c3_identical_vectors_with_variance_tagged_identical_witness :
    (2 ≤ ([1, 2, 3] : List ℚ).length ∧ ¬ popVar [1, 2, 3] < (1/100000 : ℚ) ^ 2 ∧
     2 ≤ (([1, 2, 3] : List ℚ).filter (fun v => v ≠ 0)).length ∧ popVar [1, 2, 3] ≠ 0) ∧
    (perform_two_sided_ttest_download_tag [1, 2, 3] [1, 2, 3] (1/100000) = "identical data" ∧
     calculate_metabolomics_pvalue_and_display_tag [1, 2, 3] [1, 2, 3] = "identical") :=
  ⟨⟨by decide, by norm_num [popVar, listMean], by decide, by norm_num [popVar, listMean]⟩,
    c3_identical_vectors_with_variance_tagged_identical [1, 2, 3] (1/100000)
      (by decide) (by norm_num [popVar, listMean]) (by decide) (by norm_num [popVar, listMean])⟩

/-- C5 counterexample: with compound "A" present in two rows, the ratio
spec A/B is silently skipped — the compiler returns normally with no ratio
row and raises nothing (in the source there is no raise statement in
compile_met_pool_ratio_data at all, and no MultipleRowsError exists in the
repository). -/
theorem c5_duplicate_rows_silently_skipped :
    compile_met_pool_ratio_data dupRows [⟨"A", "B"⟩] = [] := by
  decide

/-- C5 amended: a ratio spec whose numerator or denominator compound
matches two or more rows of the table contributes no ratio row and raises
no error: the single-row shape check fails and the compiler simply skips
the spec. -/
theorem c5_duplicate_rows_skip (rows : List (String × List ℚ)) (r : RatioSpec)
    (h : 2 ≤ (rows.filter (fun q => q.1 = r.numerator)).length ∨
         2 ≤ (rows.filter (fun q => q.1 = r.denominator)).length) :
    compile_met_pool_ratio_data rows [r] = [] := by
  have hlen : ((rows.filter (fun q => q.1 = r.numerator)).map Prod.snd).length ≠ 1 ∨
      ((rows.filter (fun q => q.1 = r.denominator)).map Prod.snd).length ≠ 1 := by
    rcases h with h | h
    · left
      rw [List.length_map]
      omega
    · right
      rw [List.length_map]
      omega
  unfold compile_met_pool_ratio_data
  simp only [List.filterMap_cons, List.filterMap_nil]
  split_ifs with hmem hone
  · rcases hlen with hl | hl
    · exact absurd hone.1 hl
    · exact absurd hone.2 hl
  · rfl
  · rfl

/-- A table in which compound "B" appears in two rows. -/
def dupDenomRows : List (String × List ℚ) :=
  [("A", [1]), ("B", [2]), ("B", [3])]

/-- C5 amended witness: evaluated on a table with a duplicated numerator
("A" twice) and on a table with a duplicated denominator ("B" twice). -/
theorem c5_duplicate_rows_skip_witness :
    ((2 ≤ (dupRows.filter (fun q => q.1 = (RatioSpec.mk "A" "B").numerator)).length ∨
      2 ≤ (dupRows.filter (fun q => q.1 = (RatioSpec.mk "A" "B").denominator)).length) ∧
     compile_met_pool_ratio_data dupRows [RatioSpec.mk "A" "B"] = []) ∧
    ((2 ≤ (dupDenomRows.filter (fun q => q.1 = (RatioSpec.mk "A" "B").numerator)).length ∨
      2 ≤ (dupDenomRows.filter (fun q => q.1 = (RatioSpec.mk "A" "B").denominator)).length) ∧
     compile_met_pool_ratio_data dupDenomRows [RatioSpec.mk "A" "B"] = []) :=
  ⟨⟨Or.inl (by decide),
    c5_duplicate_rows_skip dupRows (RatioSpec.mk "A" "B") (Or.inl (by decide))⟩,
   ⟨Or.inr (by decide),
    c5_duplicate_rows_skip dupDenomRows (RatioSpec.mk "A" "B") (Or.inr (by decide))⟩⟩

/-- sorted([a, b]) does not depend on the order of a and b. -/
theorem sortPair_comm (a b : ℕ) : sortPair a b = sortPair b a := by
  unfold sortPair
  split_ifs with h1 h2 h2
  · have : a = b := Nat.le_antisymm h1 h2
    subst this
    rfl
  · rfl
  · rfl
  · omega

/-- sorted([a, b]) is sorted. -/
theorem sortPair_fst_le_snd (a b : ℕ) : (sortPair a b).1 ≤ (sortPair a b).2 := by
  unfold sortPair
  split_ifs with h <;> simp <;> omega

/-- Appending a combination preserves the combinations already stored. -/
theorem mem_add_combination {acc : List (ℕ × ℕ)} {c : ℕ × ℕ} (d : ℕ × ℕ) (h : c ∈ acc) :
    c ∈ add_combination acc d := by
  unfold add_combination
  split_ifs <;> simp [h]

/-- The combination just handled is stored afterwards. -/
theorem mem_add_combination_self (acc : List (ℕ × ℕ)) (c : ℕ × ℕ) :
    c ∈ add_combination acc c := by
  unfold add_combination
  split_ifs with h
  · exact h
  · simp

/-- Every stored combination was already stored or is the one handled. -/
theorem mem_of_add_combination {acc : List (ℕ × ℕ)} {c d : ℕ × ℕ}
    (h : c ∈ add_combination acc d) : c ∈ acc ∨ c = d := by
  unfold add_combination at h
  split_ifs at h
  · exact Or.inl h
  · rcases List.mem_append.mp h with h1 | h2
    · exact Or.inl h1
    · exact Or.inr (List.mem_singleton.mp h2)

/-- Combinations already stored survive the rest of the loop. -/
theorem store_foldl_mono (go : List String) (sels : List (String × String))
    (acc : List (ℕ × ℕ)) (c : ℕ × ℕ) (h : c ∈ acc) :
    c ∈ sels.foldl
      (fun acc s => add_combination acc (sortPair (go.indexOf s.1) (go.indexOf s.2))) acc := by
  induction sels generalizing acc with
  | nil => exact h
  | cons s rest ih => exact ih _ (mem_add_combination _ h)

/-- Every combination produced by the loop is a sorted pair, given the
accumulator only holds sorted pairs. -/
theorem store_foldl_sorted (go : List String) (sels : List (String × String))
    (acc : List (ℕ × ℕ)) (hacc : ∀ c ∈ acc, c.1 ≤ c.2) :
    ∀ c ∈ sels.foldl
      (fun acc s => add_combination acc (sortPair (go.indexOf s.1) (go.indexOf s.2))) acc,
      c.1 ≤ c.2 := by
  induction sels generalizing acc with
  | nil => exact hacc
  | cons s rest ih =>
    refine ih _ ?_
    intro c hc
    rcases mem_of_add_combination hc with h1 | h2
    · exact hacc _ h1
    · subst h2
      exact sortPair_fst_le_snd _ _

/-- A trailing mirror selection of a combination already in the accumulator
changes nothing. -/
theorem store_foldl_dedup (go : List String) (g1 g2 : String)
    (post : List (String × String)) (acc : List (ℕ × ℕ))
    (h : sortPair (go.indexOf g1) (go.indexOf g2) ∈ acc) :
    (post ++ [(g2, g1)]).foldl
        (fun acc s => add_combination acc (sortPair (go.indexOf s.1) (go.indexOf s.2))) acc =
      post.foldl
        (fun acc s => add_combination acc (sortPair (go.indexOf s.1) (go.indexOf s.2))) acc := by
  rw [List.foldl_append]
  have hmem := store_foldl_mono go post acc _ h
  simp only [List.foldl_cons, List.foldl_nil]
  unfold add_combination
  rw [if_pos]
  rw [sortPair_comm]
  exact hmem

/-- C9: a single selection is stored as the sorted pair of the two groups'
indices in the group-order key list; the mirror selection stores the
identical pair; every stored pair is sorted; and a batch that contains both
a selection and its mirror collapses to the batch without the mirror. -/
theorem c9_comparisons_sorted_and_mirror_deduped (group_order : List String)
    (g1 g2 : String) (pre post : List (String × String)) :
    store_comparisons group_order [(g1, g2)] =
      [sortPair (group_order.indexOf g1) (group_order.indexOf g2)] ∧
    store_comparisons group_order [(g1, g2)] = store_comparisons group_order [(g2, g1)] ∧
    (∀ c ∈ store_comparisons group_order (pre ++ (g1, g2) :: post), c.1 ≤ c.2) ∧
    store_comparisons group_order (pre ++ (g1, g2) :: (post ++ [(g2, g1)])) =
      store_comparisons group_order (pre ++ (g1, g2) :: post) := by
  have hsingle : ∀ a b : String, store_comparisons group_order [(a, b)] =
      [sortPair (group_order.indexOf a) (group_order.indexOf b)] := by
    intro a b
    simp [store_comparisons, add_combination]
  refine ⟨hsingle g1 g2, ?_, ?_, ?_⟩
  · rw [hsingle, hsingle, sortPair_comm]
  · exact store_foldl_sorted group_order _ [] (by simp)
  · unfold store_comparisons
    rw [List.foldl_append, List.foldl_append, List.foldl_cons, List.foldl_cons]
    exact store_foldl_dedup group_order g1 g2 post _ (mem_add_combination_self _ _)

/-- C10: whenever the row's log2 fold change or its negative log10 p-value
is NaN, assign_color returns the not-significant datapoint color: every
comparison against NaN is False, so no increase or decrease branch can be
taken.  assign_color is a total function on these inputs by construction. -/
theorem c10_nan_inputs_get_datapoint_color (s : VolcanoSettings)
    (FC_cutoff t3 t2 t1 : ℚ) (logp log2FC : Option ℚ)
    (h : logp = none ∨ log2FC = none) :
    assign_color s FC_cutoff t3 t2 t1 logp log2FC = s.datapoint_color := by
  rcases h with h | h
  · subst h
    cases log2FC with
    | none => simp [assign_color, nanGt, nanLt]
    | some v => simp [assign_color, nanGt, nanLt, nanLe]
  · subst h
    simp [assign_color, nanGt, nanLt]

/-- C10 witness: a NaN p-value with a large fold change is not significant. -/
theorem c10_nan_inputs_get_datapoint_color_witness :
    ((none : Option ℚ) = none ∨ (some (3/2) : Option ℚ) = none) ∧
    assign_color demoSettings 1 3 2 (13/10) none (some (3/2)) = demoSettings.datapoint_color :=
  ⟨Or.inl rfl,
    c10_nan_inputs_get_datapoint_color demoSettings 1 3 2 (13/10) none (some (3/2)) (Or.inl rfl)⟩

/-- C7: on non-NaN inputs and ordered p-value cutoffs, assign_color computes
exactly the spec's 7-way bucket: direction by strict comparison of the fold
change against ±cutoff, tier by the highest p-value cutoff strictly
exceeded, with boundary values falling to the less significant bucket, and
the not-significant color whenever no tier cutoff is strictly exceeded —
regardless of the fold change. -/
theorem c7_assign_color_matches_spec (s : VolcanoSettings)
    (FC_cutoff t1 t2 t3 logp log2FC : ℚ) (h12 : t1 < t2) (h23 : t2 < t3) :
    assign_color s FC_cutoff t3 t2 t1 (some logp) (some log2FC) =
      volcano_spec_color s FC_cutoff t3 t2 t1 logp log2FC := by
  simp only [assign_color, volcano_spec_color, nanGt, nanLt, nanLe,
    Bool.and_eq_true, decide_eq_true_eq]
  have hcase : ∀ c3 c2 c1 cNs : String,
      (if t3 < logp then c3
       else if logp ≤ t3 ∧ t2 < logp then c2
       else if logp ≤ t2 ∧ t1 < logp then c1
       else cNs) =
      (if t3 < logp then c3
       else if t2 < logp then c2
       else if t1 < logp then c1
       else cNs) := by
    intro c3 c2 c1 cNs
    by_cases hp3 : t3 < logp
    · simp [hp3]
    · have h3le : logp ≤ t3 := le_of_not_lt hp3
      by_cases hp2 : t2 < logp
      · simp [hp3, hp2, h3le]
      · have h2le : logp ≤ t2 := le_of_not_lt hp2
        by_cases hp1 : t1 < logp
        · simp [hp3, hp2, hp1, h2le]
        · simp [hp3, hp2, hp1, h2le]
  rw [hcase, hcase]

/-- C7 witness: the spec's worked example, fc_cutoff 1, cutoffs
(1.3, 2, 3), a compound at log2fc 1.5 and −log10 p 2.5. -/
theorem c7_assign_color_matches_spec_witness :
    ((13/10 : ℚ) < 2 ∧ (2 : ℚ) < 3) ∧
    assign_color demoSettings 1 3 2 (13/10) (some (5/2)) (some (3/2)) =
      volcano_spec_color demoSettings 1 3 2 (13/10) (5/2) (3/2) :=
  ⟨⟨by norm_num, by norm_num⟩,
    c7_assign_color_matches_spec demoSettings 1 (13/10) 2 3 (5/2) (3/2)
      (by norm_num) (by norm_num)⟩

/-- Element-wise reading of the zipWith in the ratio compiler. -/
theorem zipWith_getD_ratio (f : ℚ → ℚ → ℚ) :
    ∀ (ns ds : List ℚ) (i : ℕ), i < min ns.length ds.length →
      (List.zipWith f ns ds).getD i 0 = f (ns.getD i 0) (ds.getD i 0) := by
  intro ns
  induction ns with
  | nil =>
    intro ds i h
    simp at h
  | cons n ns ih =>
    intro ds i h
    cases ds with
    | nil => simp at h
    | cons d ds =>
      cases i with
      | zero => rfl
      | succ i =>
        simp only [List.zipWith_cons_cons, List.getD_cons_succ]
        refine ih ds i ?_
        simp only [List.length_cons] at h
        omega

/-- C4: when the numerator and denominator compounds each match exactly one
row, the compiled output for that spec is a single synthetic row tagged with
pathway class "metabolite ratios" and compound name
numerator + " / " + denominator, whose cell at each sample position is the
numerator cell divided by the denominator cell when the denominator cell is
non-zero and exactly 0 otherwise (the values are rationals: no NaN or
infinity exists in the codomain). -/
theorem c4_ratio_row_values_and_tags (rows : List (String × List ℚ)) (r : RatioSpec)
    (nrow drow : String × List ℚ)
    (hn : rows.filter (fun q => q.1 = r.numerator) = [nrow])
    (hd : rows.filter (fun q => q.1 = r.denominator) = [drow]) :
    compile_met_pool_ratio_data rows [r] =
      [("metabolite ratios", r.numerator ++ " / " ++ r.denominator,
        List.zipWith (fun n d => if d ≠ 0 then n / d else 0) nrow.2 drow.2)] ∧
    ∀ i, i < min nrow.2.length drow.2.length →
      (List.zipWith (fun n d => if d ≠ 0 then n / d else 0) nrow.2 drow.2).getD i 0 =
        if drow.2.getD i 0 ≠ 0 then nrow.2.getD i 0 / drow.2.getD i 0 else 0 := by
  have hnmem : nrow ∈ rows.filter (fun q => q.1 = r.numerator) := by
    rw [hn]
    exact List.mem_singleton.mpr rfl
  have hdmem : drow ∈ rows.filter (fun q => q.1 = r.denominator) := by
    rw [hd]
    exact List.mem_singleton.mpr rfl
  have hnr := List.mem_filter.mp hnmem
  have hdr := List.mem_filter.mp hdmem
  have hmemN : r.numerator ∈ rows.map Prod.fst :=
    List.mem_map.mpr ⟨nrow, hnr.1, of_decide_eq_true hnr.2⟩
  have hmemD : r.denominator ∈ rows.map Prod.fst :=
    List.mem_map.mpr ⟨drow, hdr.1, of_decide_eq_true hdr.2⟩
  constructor
  · unfold compile_met_pool_ratio_data
    simp only [List.filterMap_cons, List.filterMap_nil, hn, hd]
    rw [if_pos ⟨hmemN, hmemD⟩]
    simp
  · intro i hi
    exact zipWith_getD_ratio _ nrow.2 drow.2 i hi

/-- The spec's worked ratio example as a table. -/
def ratioRows : List (String × List ℚ) :=
  [("A", [10, 20]), ("B", [0, 5])]

/-- C4 witness: numerator row [10, 20] over denominator row [0, 5] gives
the ratio row [0, 4]. -/
theorem c4_ratio_row_values_and_tags_witness :
    (ratioRows.filter (fun q => q.1 = (RatioSpec.mk "A" "B").numerator) =
        [("A", ([10, 20] : List ℚ))] ∧
     ratioRows.filter (fun q => q.1 = (RatioSpec.mk "A" "B").denominator) =
        [("B", ([0, 5] : List ℚ))]) ∧
    (compile_met_pool_ratio_data ratioRows [RatioSpec.mk "A" "B"] =
      [("metabolite ratios",
        (RatioSpec.mk "A" "B").numerator ++ " / " ++ (RatioSpec.mk "A" "B").denominator,
        List.zipWith (fun n d => if d ≠ 0 then n / d else 0)
          ("A", ([10, 20] : List ℚ)).2 ("B", ([0, 5] : List ℚ)).2)] ∧
     ∀ i, i < min ("A", ([10, 20] : List ℚ)).2.length ("B", ([0, 5] : List ℚ)).2.length →
      (List.zipWith (fun n d => if d ≠ 0 then n / d else 0)
          ("A", ([10, 20] : List ℚ)).2 ("B", ([0, 5] : List ℚ)).2).getD i 0 =
        if ("B", ([0, 5] : List ℚ)).2.getD i 0 ≠ 0 then
          ("A", ([10, 20] : List ℚ)).2.getD i 0 / ("B", ([0, 5] : List ℚ)).2.getD i 0
        else 0) :=
  ⟨⟨by decide, by decide⟩,
    c4_ratio_row_values_and_tags ratioRows (RatioSpec.mk "A" "B")
      ("A", [10, 20]) ("B", [0, 5]) (by decide) (by decide)⟩

/-- Dividing a list elementwise by a same-length list of ones is the
identity. -/
theorem zip_replicate_one_div (l : List ℚ) :
    (l.zip (List.replicate l.length (1 : ℚ))).map (fun p => p.1 / p.2) = l := by
  induction l with
  | nil => rfl
  | cons x xs ih =>
    simp only [List.length_cons, List.replicate_succ, List.zip_cons_cons, List.map_cons, ih]
    norm_num

/-- Mapping a constant over an index range yields a replicate list. -/
theorem map_const_range (n : ℕ) (c : ℚ) :
    (List.range n).map (fun _ => c) = List.replicate n c := by
  induction n with
  | zero => rfl
  | succ n ih =>
    rw [List.range_succ, List.map_append, ih, List.replicate_succ']
    rfl

/-- C6: when no row's compound name is in the normalization list, every
per-column normalization factor is the empty product 1 and normalization is
a no-op: the output is exactly the input restricted to the selected sample
columns, with no row dropped; the function is total, so no error can be
raised. -/
theorem c6_missing_normalization_compounds_noop (rows : List (String × List ℚ))
    (cols : List ℕ) (normalization_list : List String)
    (h : ∀ r ∈ rows, r.1 ∉ normalization_list) :
    normalization_factors (rows.map (fun r => (r.1, select_columns cols r.2)))
        normalization_list cols.length = List.replicate cols.length 1 ∧
    normalize_met_pool_data rows cols normalization_list =
      rows.map (fun r => (r.1, select_columns cols r.2)) := by
  have hfilter : (rows.map (fun r => (r.1, select_columns cols r.2))).filter
      (fun r => r.1 ∈ normalization_list) = [] := by
    rw [List.filter_eq_nil_iff]
    intro a ha
    rcases List.mem_map.mp ha with ⟨r, hr, rfl⟩
    simp [h r hr]
  have hfac : normalization_factors (rows.map (fun r => (r.1, select_columns cols r.2)))
      normalization_list cols.length = List.replicate cols.length 1 := by
    simp only [normalization_factors]
    rw [hfilter]
    simpa using map_const_range cols.length 1
  refine ⟨hfac, ?_⟩
  simp only [normalize_met_pool_data]
  rw [hfac]
  have hmap : (rows.map (fun r => (r.1, select_columns cols r.2))).map
      (fun r => (r.1, (r.2.zip (List.replicate cols.length (1 : ℚ))).map (fun p => p.1 / p.2))) =
      rows.map (fun r => (r.1, select_columns cols r.2)) := by
    conv_rhs => rw [← List.map_id (rows.map (fun r => (r.1, select_columns cols r.2)))]
    refine List.map_congr_left ?_
    intro a ha
    rcases List.mem_map.mp ha with ⟨r, hr, rfl⟩
    have hl : (select_columns cols r.2).length = cols.length := by
      simp [select_columns]
    rw [id_eq, ← hl, zip_replicate_one_div]
  rw [hmap]
  refine List.filter_eq_self.mpr ?_
  intro a ha
  rcases List.mem_map.mp ha with ⟨r, hr, rfl⟩
  simpa using h r hr

/-- A no-op instance of normalization: nothing matches the compound "C". -/
def normRows : List (String × List ℚ) :=
  [("A", [1, 2]), ("B", [3, 4])]

/-- C6 witness: normalizing against the absent compound "C" returns the
column-restricted table unchanged, with unit factors. -/
theorem c6_missing_normalization_compounds_noop_witness :
    (∀ r ∈ normRows, r.1 ∉ ["C"]) ∧
    (normalization_factors (normRows.map (fun r => (r.1, select_columns [0, 1] r.2)))
        ["C"] ([0, 1] : List ℕ).length = List.replicate ([0, 1] : List ℕ).length 1 ∧
     normalize_met_pool_data normRows [0, 1] ["C"] =
       normRows.map (fun r => (r.1, select_columns [0, 1] r.2))) :=
  ⟨by decide, c6_missing_normalization_compounds_noop normRows [0, 1] ["C"] (by decide)⟩

/-- Recursion equation for the index-wise paired points. -/
theorem valid_paired_points_cons (x y : Option ℚ) (xs ys : List (Option ℚ)) :
    valid_paired_points (x :: xs) (y :: ys) =
      (if x.isSome && y.isSome then [(x.getD 0, y.getD 0)] else []) ++
        valid_paired_points xs ys := by
  unfold valid_paired_points
  rw [List.length_cons, List.range_succ_eq_map, List.filter_cons]
  simp only [List.getD_cons_zero, List.getD_cons_succ, List.filter_map, Function.comp_def]
  cases hb : (x.isSome && y.isSome) with
  | false => simp [List.map_map, Function.comp_def]
  | true => simp [List.map_map, Function.comp_def]

/-- The mask-based paired filter of the code agrees with the index-wise
description: exactly the positions where both series are non-NaN survive,
in order, and an index dropped from one side is dropped from the other. -/
theorem pairedFilter_eq_valid_paired_points (xs : List (Option ℚ)) :
    ∀ ys : List (Option ℚ), xs.length = ys.length →
      pairedFilter xs ys = valid_paired_points xs ys := by
  induction xs with
  | nil =>
    intro ys h
    cases ys with
    | nil => rfl
    | cons y ys => simp at h
  | cons x xs ih =>
    intro ys h
    cases ys with
    | nil => simp at h
    | cons y ys =>
      have h2 : xs.length = ys.length := by simpa using h
      have ihr := ih ys h2
      cases x <;> cases y <;>
        simp [pairedFilter, valid_paired_points_cons, ← ihr]

/-- C8: the regression row first performs paired NaN filtering (the pairs
used are exactly the values at indices where both series are non-NaN); with
fewer than 2 valid paired points it emits the per-row not-determined record
with ND Reason 'Insufficient valid data points' instead of running the
regression; with 2 or more valid points it stores the five linregress
statistics (slope, intercept, r, two-sided Wald p-value, standard error)
computed on exactly the valid paired points. -/
theorem c8_lingress_paired_filter_and_guard (lin : List (ℚ × ℚ) → LinregressResult)
    (compound : String) (varVals metVals : List (Option ℚ))
    (hlen : varVals.length = metVals.length) :
    pairedFilter varVals metVals = valid_paired_points varVals metVals ∧
    ((valid_paired_points varVals metVals).length < 2 →
      get_download_df_lingress_row lin compound varVals metVals =
        LingressRecord.nd compound "Insufficient valid data points") ∧
    (2 ≤ (valid_paired_points varVals metVals).length →
      get_download_df_lingress_row lin compound varVals metVals =
        LingressRecord.stats compound (lin (valid_paired_points varVals metVals))) := by
  have hpf := pairedFilter_eq_valid_paired_points varVals metVals hlen
  refine ⟨hpf, ?_, ?_⟩
  · intro hlt
    simp only [get_download_df_lingress_row]
    rw [hpf, if_pos hlt]
  · intro hge
    simp only [get_download_df_lingress_row]
    rw [hpf, if_neg (by omega)]

/-- An independent-variable series with one NaN entry. -/
def demoVarVals : List (Option ℚ) := [some 1, none, some 2]

/-- A metabolite series fully observed. -/
def demoMetVals : List (Option ℚ) := [some 1, some 5, some 3]

/-- C8 witness: the NaN at index 1 is dropped from both sides, two valid
paired points remain and the statistics branch runs on them. -/
theorem c8_lingress_paired_filter_and_guard_witness :
    demoVarVals.length = demoMetVals.length ∧
    (pairedFilter demoVarVals demoMetVals = valid_paired_points demoVarVals demoMetVals ∧
     ((valid_paired_points demoVarVals demoMetVals).length < 2 →
       get_download_df_lingress_row demoLin "Alanine" demoVarVals demoMetVals =
         LingressRecord.nd "Alanine" "Insufficient valid data points") ∧
     (2 ≤ (valid_paired_points demoVarVals demoMetVals).length →
       get_download_df_lingress_row demoLin "Alanine" demoVarVals demoMetVals =
         LingressRecord.stats "Alanine" (demoLin (valid_paired_points demoVarVals demoMetVals)))) :=
  ⟨rfl, c8_lingress_paired_filter_and_guard demoLin "Alanine" demoVarVals demoMetVals rfl⟩

/-- The scatter output has the shape of the input p-value list. -/
theorem reintegrate_length : ∀ (ps : List (Option ℚ)) (cs : List ℚ),
    (reintegrate ps cs).length = ps.length := by
  intro ps
  induction ps with
  | nil => intro cs; rfl
  | cons p ps ih =>
    intro cs
    cases p with
    | none => simp [reintegrate, ih]
    | some v =>
      cases cs with
      | nil => simp [reintegrate, ih]
      | cons c cs => simp [reintegrate, ih]

/-- Scattering the element-wise corrected valid values back: a NaN position
stays NaN and a valid position receives exactly its corrected value. -/
theorem reintegrate_map_spec (f : ℚ → ℚ) :
    ∀ (ps : List (Option ℚ)) (i : ℕ),
      (ps.getD i none = none →
        (reintegrate ps ((ps.filterMap id).map f)).getD i none = none) ∧
      (∀ p : ℚ, ps.getD i none = some p →
        (reintegrate ps ((ps.filterMap id).map f)).getD i none = some (f p)) := by
  intro ps
  induction ps with
  | nil =>
    intro i
    constructor
    · intro _
      simp [reintegrate]
    · intro p hp
      simp at hp
  | cons q ps ih =>
    intro i
    cases q with
    | none =>
      have hfm : List.filterMap id (none :: ps) = List.filterMap id ps := by simp
      rw [hfm]
      cases i with
      | zero =>
        constructor
        · intro _
          rfl
        · intro p hp
          simp at hp
      | succ i =>
        constructor
        · intro hnone
          simp only [List.getD_cons_succ] at hnone ⊢
          exact (ih i).1 hnone
        · intro p hp
          simp only [List.getD_cons_succ] at hp ⊢
          exact (ih i).2 p hp
    | some v =>
      have hfm : List.filterMap id (some v :: ps) = v :: List.filterMap id ps := by simp
      rw [hfm, List.map_cons]
      cases i with
      | zero =>
        constructor
        · intro hnone
          simp at hnone
        · intro p hp
          simp only [List.getD_cons_zero, Option.some.injEq] at hp
          subst hp
          rfl
      | succ i =>
        constructor
        · intro hnone
          simp only [List.getD_cons_succ] at hnone ⊢
          exact (ih i).1 hnone
        · intro p hp
          simp only [List.getD_cons_succ] at hp ⊢
          exact (ih i).2 p hp

/-- C2: the corrected list has the length and order of the input; NaN
entries stay NaN at their index; every valid entry receives a numeric
corrected value; and with the Bonferroni method each corrected value is at
least the corresponding input value (for p-values, i.e. inputs in [0, 1]). -/
theorem c2_pvalue_correction_preserves_nan_and_bonferroni_monotone
    (pvalues : List (Option ℚ))
    (h : ∀ o ∈ pvalues, 0 ≤ o.getD 0 ∧ o.getD 0 ≤ 1) :
    (apply_pvalue_correction bonferroni pvalues).length = pvalues.length ∧
    ∀ i, i < pvalues.length →
      (pvalues.getD i none = none →
        (apply_pvalue_correction bonferroni pvalues).getD i none = none) ∧
      (∀ p : ℚ, pvalues.getD i none = some p →
        ∃ q : ℚ, (apply_pvalue_correction bonferroni pvalues).getD i none = some q ∧
          p ≤ q) := by
  have hmem : ∀ (i : ℕ), i < pvalues.length → ∀ p : ℚ,
      pvalues.getD i none = some p → some p ∈ pvalues := by
    intro i hi p hp
    rw [List.getD_eq_getElem pvalues none hi] at hp
    rw [← hp]
    exact List.getElem_mem hi
  by_cases hv : (pvalues.filterMap id).isEmpty
  · have happ : apply_pvalue_correction bonferroni pvalues =
        pvalues.map (fun _ => none) := by
      simp only [apply_pvalue_correction]
      rw [if_pos hv]
    have hnone : ∀ i : ℕ, (pvalues.map (fun _ => (none : Option ℚ))).getD i none = none := by
      intro i
      induction pvalues generalizing i with
      | nil => rfl
      | cons q ps ih =>
        cases i with
        | zero => rfl
        | succ i => simpa using ih i
    refine ⟨by rw [happ]; simp, ?_⟩
    intro i hi
    refine ⟨fun _ => by rw [happ]; exact hnone i, ?_⟩
    intro p hp
    exfalso
    have hpm : p ∈ pvalues.filterMap id := by
      refine List.mem_filterMap.mpr ⟨some p, hmem i hi p hp, rfl⟩
    rw [List.isEmpty_iff] at hv
    rw [hv] at hpm
    simp at hpm
  · have happ : apply_pvalue_correction bonferroni pvalues =
        reintegrate pvalues ((pvalues.filterMap id).map
          (fun p => min (p * ((pvalues.filterMap id).length : ℚ)) 1)) := by
      simp only [apply_pvalue_correction]
      rw [if_neg hv]
      rfl
    have hn1 : (1 : ℚ) ≤ ((pvalues.filterMap id).length : ℚ) := by
      have : pvalues.filterMap id ≠ [] := fun hnil => hv (by rw [hnil]; rfl)
      have hpos : 0 < (pvalues.filterMap id).length := List.length_pos.mpr this
      exact_mod_cast hpos
    refine ⟨by rw [happ]; exact reintegrate_length _ _, ?_⟩
    intro i hi
    constructor
    · intro hnone
      rw [happ]
      exact (reintegrate_map_spec _ pvalues i).1 hnone
    · intro p hp
      refine ⟨min (p * ((pvalues.filterMap id).length : ℚ)) 1, ?_, ?_⟩
      · rw [happ]
        exact (reintegrate_map_spec _ pvalues i).2 p hp
      · have h01 := h (some p) (hmem i hi p hp)
        simp only [Option.getD_some] at h01
        exact le_min (le_mul_of_one_le_right h01.1 hn1) h01.2

/-- C2 witness: the spec's worked list [0.01, NaN, 0.04, NaN, 0.5]. -/
theorem c2_pvalue_correction_witness :
    (∀ o ∈ demoPvalues, 0 ≤ o.getD 0 ∧ o.getD 0 ≤ 1) ∧
    ((apply_pvalue_correction bonferroni demoPvalues).length = demoPvalues.length ∧
     ∀ i, i < demoPvalues.length →
       (demoPvalues.getD i none = none →
         (apply_pvalue_correction bonferroni demoPvalues).getD i none = none) ∧
       (∀ p : ℚ, demoPvalues.getD i none = some p →
         ∃ q : ℚ, (apply_pvalue_correction bonferroni demoPvalues).getD i none = some q ∧
           p ≤ q)) :=
  ⟨by norm_num [demoPvalues],
    c2_pvalue_correction_preserves_nan_and_bonferroni_monotone demoPvalues
      (by norm_num [demoPvalues])⟩

end Grapha
